import Mathlib

/-!
Verification of the satsuki core: a function-extraction-and-matching engine.
The Rust source (`src/lib.rs`, `src/bin/satsuki.rs`) is shallowly embedded
below.  Bytes are `Nat`, the Rust `f32` score arithmetic is modelled exactly
over `ℚ`, the `HashMap<String, Function>` is modelled as an association list
in insertion order, and a Rust panic raised by slice indexing (out-of-bounds
range or `usize` underflow of `address - base`) is modelled as the explicit
error `ExecutableError.outOfBoundsSlice`.  The opaque adapters (object file,
PDB, capstone decoder) are modelled as plain data structures carrying exactly
the fields the core reads.
-/

namespace Satsuki

/-- A byte of the text section (`u8`), modelled as `Nat`. -/
abbrev Byte := Nat

/-- Embedding of `struct Function { name, address, data }` from `lib.rs`. -/
structure Function where
  name : String
  address : Nat
  data : List Byte
deriving DecidableEq, Repr

/-- Embedding of `enum ExecutableError` from `lib.rs`.  The payload-carrying
adapter errors are abstracted to nullary constructors; `outOfBoundsSlice`
models the Rust slice-index panic (there is no such variant in the source:
out-of-bounds extraction panics instead of returning an error value). -/
inductive ExecutableError where
  | objectError
  | pdbError
  | capstoneError
  | writeError
  | functionNameConflict (function_name : String)
  | outOfBoundsSlice
deriving DecidableEq, Repr

/-- Embedding of `struct Executable { functions: HashMap<String, Function> }`;
the hash map is modelled as an association list in insertion order. -/
structure Executable where
  functions : List (String × Function) := []
deriving DecidableEq, Repr

/-- Embedding of `struct FunctionDef { name, address, size }` (mapping TOML). -/
structure FunctionDef where
  name : Option String
  address : Nat
  size : Nat
deriving DecidableEq, Repr

/-- Embedding of `struct Mapping { function: Option<Vec<FunctionDef>> }`. -/
structure Mapping where
  function : Option (List FunctionDef)
deriving DecidableEq, Repr

/-- `Mapping::get_function_def`: first entry whose (present) name matches. -/
def Mapping.get_function_def (m : Mapping) (name : String) : Option FunctionDef :=
  match m.function with
  | some function => function.find? (fun f => f.name == some name)
  | none => none

/-- A symbol of the object file as the core reads it: `kind_is_text` stands
for `sym.kind() == SymbolKind::Text`. -/
structure ObjSymbol where
  kind_is_text : Bool
  name : String
  address : Nat
  size : Nat
deriving DecidableEq, Repr

/-- The object-file adapter view: optional `.text` section (base address and
bytes) plus the symbol table. -/
structure ObjectFile where
  text_section : Option (Nat × List Byte)
  symbols : List ObjSymbol
deriving DecidableEq, Repr

/-- A PDB module procedure symbol as the core reads it. -/
structure ProcedureSym where
  name : String
  offset : Nat
  len : Nat
deriving DecidableEq, Repr

/-- A PDB global public symbol as the core reads it. -/
structure PublicSym where
  function : Bool
  name : String
  offset : Nat
deriving DecidableEq, Repr

/-- The PDB adapter view: per-module procedure symbols and global publics. -/
structure PdbFile where
  modules : List (List ProcedureSym)
  publics : List PublicSym
deriving DecidableEq, Repr

/-- `Executable::add_function`: on a name conflict nothing is mutated and
`FunctionNameConflict` is returned; otherwise the `Function` is inserted.
Returns the Rust `Result` together with the post-state of `self`. -/
def Executable.add_function (e : Executable) (name : String) (address : Nat)
    (data : List Byte) : Except ExecutableError Unit × Executable :=
  if e.functions.any (fun kv => kv.1 == name) then
    (Except.error (ExecutableError.functionNameConflict name), e)
  else
    (Except.ok (), ⟨e.functions ++ [(name, ⟨name, address, data⟩)]⟩)

/-- `Executable::functions_count`. -/
def Executable.functions_count (e : Executable) : Nat :=
  e.functions.length

/-- `self.functions.contains_key(&name)`. -/
def Executable.containsFunction (e : Executable) (name : String) : Bool :=
  e.functions.any (fun kv => kv.1 == name)

/-- `Executable::get_function`: hash map lookup by name. -/
def Executable.get_function (e : Executable) (name : String) : Option Function :=
  (e.functions.find? (fun kv => kv.1 == name)).map Prod.snd

/-- `Executable::get_function_by_address`: linear scan over the values,
first function whose `address` field matches. -/
def Executable.get_function_by_address (e : Executable) (address : Nat) :
    Option Function :=
  (e.functions.find? (fun kv => kv.2.address == address)).map Prod.snd

/-- The matching-position count of `Function::compute_raw_diff`: walk
`self.data` with its index, a position matches when `other.data` has that
index and holds an equal byte. -/
def matchingCount : List Byte → List Byte → Nat
  | [], _ => 0
  | _ :: as, [] => matchingCount as []
  | a :: as, b :: bs => (if a = b then 1 else 0) + matchingCount as bs

/-- `Function::compute_raw_diff`: `matching_count / len(self.data) * 100.0`,
with the `f32` arithmetic modelled exactly over `ℚ`. -/
def Function.compute_raw_diff (self other : Function) : ℚ :=
  (matchingCount self.data other.data : ℚ) / (self.data.length : ℚ) * 100

/-- The checked assertion of `compute_raw_diff`:
`assert!(result != 100.0 || expected_function_size == other.data.len())`. -/
def Function.rawDiffAssert (self other : Function) : Bool :=
  decide (self.compute_raw_diff other ≠ 100) ||
    decide (self.data.length = other.data.length)

/-- `compute_raw_diff` as actually run: `none` models the assertion firing
(a Rust panic), `some` the returned score. -/
def Function.compute_raw_diff_run (self other : Function) : Option ℚ :=
  if self.rawDiffAssert other then some (self.compute_raw_diff other) else none

/-- `Executable::get_function_stat`: the score when the name is present on
both sides, `None` otherwise. -/
def Executable.get_function_stat (self other : Executable) (name : String) :
    Option ℚ :=
  match self.get_function name, other.get_function name with
  | some a, some b => some (a.compute_raw_diff b)
  | _, _ => none

/-- `Executable::generate_stats`: one entry per function name of `self`. -/
def Executable.generate_stats (self other : Executable) :
    List (String × Option ℚ) :=
  self.functions.map (fun kv => (kv.1, self.get_function_stat other kv.1))

/-- Models `text_data[offset..offset + size]` where
`offset = address - base`: Rust panics when `address < base` (usize
underflow) or when the range leaves the slice; both are returned as
`outOfBoundsSlice`. -/
def extractSlice (base : Nat) (td : List Byte) (address size : Nat) :
    Except ExecutableError (List Byte) :=
  if address < base then Except.error ExecutableError.outOfBoundsSlice
  else if address - base + size ≤ td.length then
    Except.ok ((td.drop (address - base)).take size)
  else Except.error ExecutableError.outOfBoundsSlice

/-- The symbol loop of `Executable::from_object` over the already-filtered
symbol list: slice the bytes, skip `size == 0`, and propagate every
`add_function` error (`?`). -/
def Executable.primaryPass (e : Executable) (base : Nat) (td : List Byte) :
    List ObjSymbol → Except ExecutableError Executable
  | [] => Except.ok e
  | sym :: rest =>
    match extractSlice base td sym.address sym.size with
    | Except.error err => Except.error err
    | Except.ok data =>
      if sym.size = 0 then e.primaryPass base td rest
      else
        match e.add_function sym.name sym.address data with
        | (Except.ok _, e2) => e2.primaryPass base td rest
        | (Except.error err, _) => Except.error err

/-- `Executable::from_object`: empty table when no `.text` section exists,
otherwise run the primary pass over the text symbols of nonzero size. -/
def Executable.from_object (obj : ObjectFile) : Except ExecutableError Executable :=
  match obj.text_section with
  | none => Except.ok {}
  | some (base, td) =>
    Executable.primaryPass {} base td
      (obj.symbols.filter (fun s => s.kind_is_text && s.size != 0))

/-- `Executable::add_function_from_pdb`: skip `len == 0`, slice
`text_data[offset..offset + len]` (panic modelled as `outOfBoundsSlice`),
insert, and swallow exactly `FunctionNameConflict`. -/
def Executable.add_function_from_pdb (e : Executable) (text_section_address : Nat)
    (td : List Byte) (name : String) (offset len : Nat) :
    Except ExecutableError Executable :=
  if len = 0 then Except.ok e
  else if offset + len ≤ td.length then
    match e.add_function name (text_section_address + offset)
        ((td.drop offset).take len) with
    | (Except.ok _, e2) => Except.ok e2
    | (Except.error (ExecutableError.functionNameConflict _), e2) => Except.ok e2
    | (Except.error err, _) => Except.error err
  else Except.error ExecutableError.outOfBoundsSlice

/-- The per-module procedure-symbol loop of `from_object_with_pdb`. -/
def Executable.pdbProceduresPass (e : Executable) (base : Nat) (td : List Byte) :
    List ProcedureSym → Except ExecutableError Executable
  | [] => Except.ok e
  | p :: rest =>
    match e.add_function_from_pdb base td p.name p.offset p.len with
    | Except.ok e2 => e2.pdbProceduresPass base td rest
    | Except.error err => Except.error err

/-- The module loop of `from_object_with_pdb`. -/
def Executable.pdbModulesPass (e : Executable) (base : Nat) (td : List Byte) :
    List (List ProcedureSym) → Except ExecutableError Executable
  | [] => Except.ok e
  | m :: rest =>
    match e.pdbProceduresPass base td m with
    | Except.ok e2 => e2.pdbModulesPass base td rest
    | Except.error err => Except.error err

/-- The global public-symbol loop of `from_object_with_pdb`: only symbols
flagged as functions are considered, sized through the mapping (default 0,
which `add_function_from_pdb` skips). -/
def Executable.pdbPublicsPass (e : Executable) (base : Nat) (td : List Byte)
    (mapping : Mapping) : List PublicSym → Except ExecutableError Executable
  | [] => Except.ok e
  | p :: rest =>
    if p.function then
      match e.add_function_from_pdb base td p.name p.offset
          (((mapping.get_function_def p.name).map FunctionDef.size).getD 0) with
      | Except.ok e2 => e2.pdbPublicsPass base td mapping rest
      | Except.error err => Except.error err
    else
      e.pdbPublicsPass base td mapping rest

/-- `Executable::from_object_with_pdb`: primary pass, then the PDB module
procedures, then the PDB publics. -/
def Executable.from_object_with_pdb (obj : ObjectFile) (mapping : Mapping)
    (pdb : PdbFile) : Except ExecutableError Executable :=
  match Executable.from_object obj with
  | Except.error err => Except.error err
  | Except.ok res =>
    match obj.text_section with
    | none => Except.ok res
    | some (base, td) =>
      match res.pdbModulesPass base td pdb.modules with
      | Except.error err => Except.error err
      | Except.ok res2 => res2.pdbPublicsPass base td mapping pdb.publics

/-- The mapping-entry loop of `from_object_with_mapping`: unnamed entries are
skipped, the slice is taken (panic modelled as `outOfBoundsSlice`), and
`FunctionNameConflict` is swallowed.  Note: there is no `size == 0` guard. -/
def Executable.mappingPass (e : Executable) (base : Nat) (td : List Byte) :
    List FunctionDef → Except ExecutableError Executable
  | [] => Except.ok e
  | fd :: rest =>
    match fd.name with
    | none => e.mappingPass base td rest
    | some name =>
      match extractSlice base td fd.address fd.size with
      | Except.error err => Except.error err
      | Except.ok data =>
        match e.add_function name fd.address data with
        | (Except.ok _, e2) => e2.mappingPass base td rest
        | (Except.error (ExecutableError.functionNameConflict _), e2) =>
          e2.mappingPass base td rest
        | (Except.error err, _) => Except.error err

/-- `Executable::from_object_with_mapping`: primary pass, then the named
mapping entries. -/
def Executable.from_object_with_mapping (obj : ObjectFile) (mapping : Mapping) :
    Except ExecutableError Executable :=
  match Executable.from_object obj with
  | Except.error err => Except.error err
  | Except.ok res =>
    match obj.text_section with
    | none => Except.ok res
    | some (base, td) =>
      match mapping.function with
      | none => Except.ok res
      | some functions => res.mappingPass base td functions

/-- An operand as the core reads it from the decoder: either an `x86`
immediate (`X86OperandType::Imm(i64)`) or anything else. -/
inductive Operand where
  | imm (value : Int)
  | nonImm
deriving DecidableEq, Repr

/-- A decoded instruction as the core reads it: optional mnemonic, optional
raw operand string, group-name tags, and the typed operand list. -/
structure Insn where
  mnemonic : Option String
  op_str : Option String
  groups : List String
  operands : List Operand
deriving DecidableEq, Repr

/-- `n as i32`: two's-complement interpretation of the low 32 bits. -/
def toI32 (n : Int) : Int := (n + 2 ^ 31) % 2 ^ 32 - 2 ^ 31

/-- `n as i64`: two's-complement interpretation of the low 64 bits. -/
def toI64 (n : Int) : Int := (n + 2 ^ 63) % 2 ^ 64 - 2 ^ 63

/-- `n as usize` on a 64-bit target: the low 64 bits, unsigned. -/
def toUsize (n : Int) : Nat := (n % 2 ^ 64).toNat

/-- The call-target computation of `Function::format_instruction`:
`(self.address as i32 + immediate as i32) as usize` in the 32-bit branch
(integer overflow taken as the release-mode two's-complement wrap),
`(self.address as i64 + immediate) as usize` in the 64-bit branch, and
`immediate as usize` when `force_address_zero` is off. -/
def callTargetAddress (self_address : Nat) (force_address_zero is_32bit : Bool)
    (immediate : Int) : Nat :=
  if force_address_zero then
    if is_32bit then toUsize (toI32 (toI32 self_address + toI32 immediate))
    else toUsize (toI64 (toI64 self_address + immediate))
  else toUsize immediate

/-- `Function::format_instruction`: with name resolution on, an instruction
grouped as both `call` and `branch_relative` with exactly one immediate
operand whose computed target address matches a known `Function` is printed
as `mnemonic name`; every other instruction falls back to
`mnemonic op_str`, and an instruction with no mnemonic prints nothing. -/
def Function.format_instruction (self : Function) (executable : Executable)
    (force_address_zero resolve_names : Bool) (instruction : Insn) : String :=
  let group_names := instruction.groups
  let custom : Option String :=
    if resolve_names && group_names.contains "call"
        && group_names.contains "branch_relative" then
      match instruction.operands with
      | [Operand.imm immediate] =>
        match executable.get_function_by_address
            (callTargetAddress self.address force_address_zero
              (!group_names.contains "not64bitmode") immediate),
          instruction.mnemonic with
        | some target_function, some mnemonic =>
          some (mnemonic ++ " " ++ target_function.name ++ "\n")
        | _, _ => none
      | _ => none
    else none
  match custom with
  | some s => s
  | none =>
    match instruction.mnemonic with
    | some mnemonic => mnemonic ++ " " ++ instruction.op_str.getD "" ++ "\n"
    | none => ""

/-- `Function::disassemble` with the decoder (`ctx.disasm_all`) abstracted as
a function from bytes and base address to the instruction list. -/
def Function.disassemble (self : Function) (decoder : List Byte → Nat → List Insn)
    (executable : Executable) (force_address_zero resolve_names : Bool) : String :=
  let address := if force_address_zero then 0 else self.address
  (decoder self.data address).foldl
    (fun res instruction =>
      res ++ self.format_instruction executable force_address_zero resolve_names
        instruction) ""

/-- The accumulation of `handle_stats_report` (`satsuki.rs`): sum every
present per-function score. -/
def statsGlobalMatch (stats : List (String × Option ℚ)) : ℚ :=
  stats.foldl (fun acc kv => match kv.2 with | some v => acc + v | none => acc) 0

/-- The accumulation of `handle_badge` (`satsuki.rs`): `value.unwrap_or(0.0)`
summed over all entries. -/
def badgeGlobalMatch (stats : List (String × Option ℚ)) : ℚ :=
  stats.foldl (fun acc kv => acc + kv.2.getD 0) 0

/-- The global percentage printed by `handle_stats_report`:
`global_match / original_executable.functions_count()`. -/
def handleStatsGlobal (orig reimpl : Executable) : ℚ :=
  statsGlobalMatch (orig.generate_stats reimpl) / (orig.functions_count : ℚ)

/-- The global percentage written by `handle_badge`. -/
def handleBadgeGlobal (orig reimpl : Executable) : ℚ :=
  badgeGlobalMatch (orig.generate_stats reimpl) / (orig.functions_count : ℚ)

/-- Claim-side matching count, following the words of the spec: the number of
indices `idx` in `0..len(self.data)` such that `idx < len(other.data)` and
`self.data[idx] == other.data[idx]`. -/
def claimMatchingCount (a b : List Byte) : Nat :=
  (List.range a.length).countP
    (fun idx => decide (idx < b.length) && decide (a[idx]? = b[idx]?))

/-- Every `Function` stored in the table has non-empty `data`. -/
def Executable.allNonEmpty (e : Executable) : Bool :=
  e.functions.all (fun kv => !kv.2.data.isEmpty)

/-! ### Helper lemmas about the matching count -/

lemma matchingCount_nil_right : ∀ (a : List Byte), matchingCount a [] = 0 := by
  intro a
  induction a with
  | nil => rfl
  | cons x xs ih => simpa [matchingCount] using ih

lemma matchingCount_le_left : ∀ (a b : List Byte), matchingCount a b ≤ a.length := by
  intro a
  induction a with
  | nil => intro b; simp [matchingCount]
  | cons x xs ih =>
    intro b
    cases b with
    | nil => simp [matchingCount_nil_right]
    | cons y ys =>
      have h := ih ys
      simp only [matchingCount, List.length_cons]
      split <;> omega

lemma matchingCount_le_right : ∀ (a b : List Byte), matchingCount a b ≤ b.length := by
  intro a
  induction a with
  | nil => intro b; simp [matchingCount]
  | cons x xs ih =>
    intro b
    cases b with
    | nil => simp [matchingCount_nil_right]
    | cons y ys =>
      have h := ih ys
      simp only [matchingCount, List.length_cons]
      split <;> omega

lemma matchingCount_lt_of_mismatch :
    ∀ (a b : List Byte) (i : Nat), i < a.length → a[i]? ≠ b[i]? →
      matchingCount a b < a.length := by
  intro a
  induction a with
  | nil => intro b i hi; simp at hi
  | cons x xs ih =>
    intro b i hi hne
    cases b with
    | nil => simp [matchingCount_nil_right]
    | cons y ys =>
      cases i with
      | zero =>
        have hxy : x ≠ y := by simpa using hne
        have h := matchingCount_le_left xs ys
        simp only [matchingCount, List.length_cons, if_neg hxy]
        omega
      | succ j =>
        have hj : j < xs.length := by simpa using hi
        have hne2 : xs[j]? ≠ ys[j]? := by simpa using hne
        have h := ih ys j hj hne2
        simp only [matchingCount, List.length_cons]
        split <;> omega

lemma claimMatchingCount_nil_left (b : List Byte) : claimMatchingCount [] b = 0 := by
  simp [claimMatchingCount]

lemma claimMatchingCount_nil_right (a : List Byte) : claimMatchingCount a [] = 0 := by
  simp [claimMatchingCount]

lemma claimMatchingCount_cons (x y : Byte) (xs ys : List Byte) :
    claimMatchingCount (x :: xs) (y :: ys) =
      (if x = y then 1 else 0) + claimMatchingCount xs ys := by
  simp only [claimMatchingCount, List.length_cons, List.range_succ_eq_map,
    List.countP_cons, List.countP_map]
  have hc : ∀ idx ∈ List.range xs.length,
      (((fun idx => decide (idx < ys.length + 1) &&
          decide ((x :: xs)[idx]? = (y :: ys)[idx]?)) ∘ Nat.succ) idx = true ↔
        (fun idx => decide (idx < ys.length) && decide (xs[idx]? = ys[idx]?)) idx = true) := by
    intro idx _
    simp [Nat.succ_lt_succ_iff]
  rw [List.countP_congr hc]
  rcases eq_or_ne x y with h | h <;> simp [h] <;> omega

lemma matchingCount_eq_claim :
    ∀ (a b : List Byte), matchingCount a b = claimMatchingCount a b := by
  intro a
  induction a with
  | nil => intro b; simp [matchingCount, claimMatchingCount_nil_left]
  | cons x xs ih =>
    intro b
    cases b with
    | nil => simp [matchingCount_nil_right, claimMatchingCount_nil_right]
    | cons y ys => rw [matchingCount, claimMatchingCount_cons, ih ys]

/-! ### C1, C9, C5: the matcher -/

/-- C1: for Functions with `self.data` non-empty, `compute_raw_diff` returns
`matching_count / len(self.data) * 100.0` where `matching_count` is the
number of indices `idx` in `0..len(self.data)` with `idx < len(other.data)`
and `self.data[idx] == other.data[idx]` (positions beyond `other`'s length
never count).  The `f32` arithmetic is modelled exactly over `ℚ`. -/
theorem C1_compute_raw_diff_formula (self other : Function) (h : self.data ≠ []) :
    self.compute_raw_diff other =
      (claimMatchingCount self.data other.data : ℚ) / (self.data.length : ℚ) * 100 := by
  rw [Function.compute_raw_diff, matchingCount_eq_claim]

theorem C1_compute_raw_diff_formula_witness :
    (⟨"a", 0, [1, 2, 3]⟩ : Function).data ≠ [] ∧
      (⟨"a", 0, [1, 2, 3]⟩ : Function).compute_raw_diff ⟨"b", 0, [1, 9, 3]⟩ =
        (claimMatchingCount [1, 2, 3] [1, 9, 3] : ℚ) / ((3 : Nat) : ℚ) * 100 :=
  ⟨by decide,
    C1_compute_raw_diff_formula ⟨"a", 0, [1, 2, 3]⟩ ⟨"b", 0, [1, 9, 3]⟩ (by decide)⟩

/-- C9: two Functions of equal non-zero data length that differ at some
index score strictly less than `100.0`. -/
theorem C9_unequal_data_lt_100 (a b : Function) (i : Nat)
    (hlen : a.data.length = b.data.length) (hne : a.data ≠ [])
    (hi : i < a.data.length) (hdiff : a.data[i]? ≠ b.data[i]?) :
    a.compute_raw_diff b < 100 := by
  have hm : matchingCount a.data b.data < a.data.length :=
    matchingCount_lt_of_mismatch a.data b.data i hi hdiff
  have hn : 0 < a.data.length := List.length_pos.mpr hne
  rw [Function.compute_raw_diff]
  have hnq : (0 : ℚ) < (a.data.length : ℚ) := by exact_mod_cast hn
  have h1 : (matchingCount a.data b.data : ℚ) / (a.data.length : ℚ) < 1 :=
    (div_lt_one hnq).mpr (by exact_mod_cast hm)
  calc (matchingCount a.data b.data : ℚ) / (a.data.length : ℚ) * 100
      < 1 * 100 := by
        exact mul_lt_mul_of_pos_right h1 (by norm_num)
    _ = 100 := one_mul 100

theorem C9_unequal_data_lt_100_witness :
    (⟨"a", 0, [1, 2]⟩ : Function).compute_raw_diff ⟨"b", 0, [1, 3]⟩ < 100 :=
  C9_unequal_data_lt_100 ⟨"a", 0, [1, 2]⟩ ⟨"b", 0, [1, 3]⟩ 1 (by decide) (by decide)
    (by decide) (by decide)

/-- C5 fails on the code: when `self.data` is a proper prefix-match of
`other.data` the computed score is exactly `100.0` while the lengths differ,
so the checked assertion inside `compute_raw_diff` fires (a Rust panic,
`compute_raw_diff_run = none`). -/
theorem C5_counterexample :
    (⟨"a", 0, [0]⟩ : Function).compute_raw_diff ⟨"b", 0, [0, 0]⟩ = 100
    ∧ (⟨"a", 0, [0]⟩ : Function).data.length ≠ (⟨"b", 0, [0, 0]⟩ : Function).data.length
    ∧ (⟨"a", 0, [0]⟩ : Function).rawDiffAssert ⟨"b", 0, [0, 0]⟩ = false
    ∧ (⟨"a", 0, [0]⟩ : Function).compute_raw_diff_run ⟨"b", 0, [0, 0]⟩ = none := by
  have h100 : (⟨"a", 0, [0]⟩ : Function).compute_raw_diff ⟨"b", 0, [0, 0]⟩ = 100 := by
    norm_num [Function.compute_raw_diff, matchingCount]
  have hassert : (⟨"a", 0, [0]⟩ : Function).rawDiffAssert ⟨"b", 0, [0, 0]⟩ = false := by
    simp [Function.rawDiffAssert, h100]
  refine ⟨h100, by decide, hassert, ?_⟩
  simp [Function.compute_raw_diff_run, hassert]

/-- C5 amended: a score of exactly `100.0` only guarantees
`len(self.data) ≤ len(other.data)` (every byte of `self` matched); the
assertion enforces length equality and hence fails (panics) exactly on the
proper-prefix-match inputs, and whenever the assertion passes, a score of
`100.0` does imply equal lengths. -/
theorem C5_amended_100_length_le (a b : Function) (h : a.data ≠ []) :
    (a.compute_raw_diff b = 100 → a.data.length ≤ b.data.length)
    ∧ (a.rawDiffAssert b = true → a.compute_raw_diff b = 100 →
        a.data.length = b.data.length) := by
  constructor
  · intro hs
    have hn : 0 < a.data.length := List.length_pos.mpr h
    have hnq : ((a.data.length : ℚ)) ≠ 0 := by
      exact_mod_cast Nat.pos_iff_ne_zero.mp hn
    rw [Function.compute_raw_diff] at hs
    have hdiv : (matchingCount a.data b.data : ℚ) / (a.data.length : ℚ) = 1 := by
      have h100 : (matchingCount a.data b.data : ℚ) / (a.data.length : ℚ) * 100 =
          1 * 100 := by rw [hs]; ring
      exact mul_right_cancel₀ (by norm_num) h100
    have heq : (matchingCount a.data b.data : ℚ) = (a.data.length : ℚ) :=
      (div_eq_one_iff_eq hnq).mp hdiv
    have heqn : matchingCount a.data b.data = a.data.length := by exact_mod_cast heq
    calc a.data.length = matchingCount a.data b.data := heqn.symm
      _ ≤ b.data.length := matchingCount_le_right a.data b.data
  · intro hassert hs
    rw [Function.rawDiffAssert] at hassert
    rcases Bool.or_eq_true_iff.mp hassert with h1 | h1
    · exact absurd hs (of_decide_eq_true h1)
    · exact of_decide_eq_true h1

theorem C5_amended_100_length_le_witness :
    (⟨"a", 0, [7]⟩ : Function).data.length ≤ (⟨"b", 0, [7]⟩ : Function).data.length ∧
      (⟨"a", 0, [7]⟩ : Function).data.length = (⟨"b", 0, [7]⟩ : Function).data.length :=
  ⟨(C5_amended_100_length_le ⟨"a", 0, [7]⟩ ⟨"b", 0, [7]⟩ (by decide)).1
      (by norm_num [Function.compute_raw_diff, matchingCount]),
    (C5_amended_100_length_le ⟨"a", 0, [7]⟩ ⟨"b", 0, [7]⟩ (by decide)).2
      (by norm_num [Function.rawDiffAssert, Function.compute_raw_diff, matchingCount])
      (by norm_num [Function.compute_raw_diff, matchingCount])⟩

/-! ### Helper lemmas about the function table -/

lemma lookup_map_keyed :
    ∀ (l : List (String × Function)) (g : String → Option ℚ) (name : String),
      List.lookup name (l.map (fun kv => (kv.1, g kv.1))) =
        if l.any (fun kv => kv.1 == name) then some (g name) else none := by
  intro l g name
  induction l with
  | nil => simp
  | cons kv rest ih =>
    by_cases h : name = kv.1
    · simp [List.lookup_cons, h]
    · have h2 : ¬ kv.1 = name := fun hh => h hh.symm
      have hb1 : (name == kv.1) = false := beq_eq_false_iff_ne.mpr h
      have hb2 : (kv.1 == name) = false := beq_eq_false_iff_ne.mpr h2
      simp [List.lookup_cons, hb1, hb2, ih]
      rw [hb2, Bool.false_or]

lemma containsFunction_iff_isSome (e : Executable) (name : String) :
    e.containsFunction name = true ↔ (e.get_function name).isSome = true := by
  simp [Executable.containsFunction, Executable.get_function, List.any_eq_true,
    List.find?_isSome]

/-! ### C6: generate_stats -/

/-- C6: `generate_stats(other)` holds exactly one entry per function name of
`self`, carrying `Some score` when the name also lives in `other` and `None`
when it does not. -/
theorem C6_generate_stats_entries (self other : Executable) (name : String) :
    ((self.generate_stats other).map Prod.fst = self.functions.map Prod.fst)
    ∧ (self.get_function name = none →
        List.lookup name (self.generate_stats other) = none)
    ∧ (∀ a b, self.get_function name = some a → other.get_function name = some b →
        List.lookup name (self.generate_stats other) =
          some (some (a.compute_raw_diff b)))
    ∧ (∀ a, self.get_function name = some a → other.get_function name = none →
        List.lookup name (self.generate_stats other) = some none) := by
  refine ⟨?_, ?_, ?_, ?_⟩
  · simp [Executable.generate_stats]
  · intro hn
    rw [Executable.generate_stats, lookup_map_keyed]
    have hc : ¬ self.containsFunction name = true := by
      rw [containsFunction_iff_isSome, hn]
      simp
    rw [Executable.containsFunction] at hc
    simp [hc]
  · intro a b ha hb
    rw [Executable.generate_stats, lookup_map_keyed]
    have hc : self.containsFunction name = true := by
      rw [containsFunction_iff_isSome, ha]
      rfl
    rw [Executable.containsFunction] at hc
    simp only [hc, if_true]
    rw [Executable.get_function_stat, ha, hb]
  · intro a ha hb
    rw [Executable.generate_stats, lookup_map_keyed]
    have hc : self.containsFunction name = true := by
      rw [containsFunction_iff_isSome, ha]
      rfl
    rw [Executable.containsFunction] at hc
    simp only [hc, if_true]
    rw [Executable.get_function_stat, ha, hb]

theorem C6_generate_stats_entries_witness :
    List.lookup "f" (Executable.generate_stats ⟨[("f", ⟨"f", 0, [1]⟩)]⟩
        ⟨[("f", ⟨"f", 0, [1]⟩)]⟩) = some (some ((⟨"f", 0, [1]⟩ : Function).compute_raw_diff
          ⟨"f", 0, [1]⟩))
    ∧ List.lookup "h" (Executable.generate_stats ⟨[("h", ⟨"h", 0, [1]⟩)]⟩
        ⟨[("f", ⟨"f", 0, [1]⟩)]⟩) = some none :=
  ⟨(C6_generate_stats_entries ⟨[("f", ⟨"f", 0, [1]⟩)]⟩ ⟨[("f", ⟨"f", 0, [1]⟩)]⟩
      "f").2.2.1 ⟨"f", 0, [1]⟩ ⟨"f", 0, [1]⟩ (by decide) (by decide),
    (C6_generate_stats_entries ⟨[("h", ⟨"h", 0, [1]⟩)]⟩ ⟨[("f", ⟨"f", 0, [1]⟩)]⟩
      "h").2.2.2 ⟨"h", 0, [1]⟩ (by decide) (by decide)⟩

/-! ### C7: the global aggregate of the stats and badge commands -/

lemma statsGlobalMatch_foldl :
    ∀ (l : List (String × Option ℚ)) (acc : ℚ),
      l.foldl (fun acc kv => match kv.2 with | some v => acc + v | none => acc) acc =
        acc + (l.filterMap Prod.snd).sum := by
  intro l
  induction l with
  | nil => intro acc; simp
  | cons kv rest ih =>
    intro acc
    cases h : kv.2 with
    | none => simp [h, ih]
    | some v =>
      simp only [List.foldl_cons, h, List.filterMap_cons, ih, List.sum_cons]
      ring

lemma badgeGlobalMatch_foldl :
    ∀ (l : List (String × Option ℚ)) (acc : ℚ),
      l.foldl (fun acc kv => acc + kv.2.getD 0) acc =
        acc + (l.filterMap Prod.snd).sum := by
  intro l
  induction l with
  | nil => intro acc; simp
  | cons kv rest ih =>
    intro acc
    cases h : kv.2 with
    | none => simp [h, ih]
    | some v =>
      simp only [List.foldl_cons, h, Option.getD_some, List.filterMap_cons, ih,
        List.sum_cons]
      ring

/-- C7: both the stats report and the badge compute the global percentage as
the sum of the present per-function scores divided by the total function
count of the reference executable; a missing function contributes 0 to the
numerator but still counts in the denominator (3 functions, two at 100.0 and
one missing, give 200.0/3). -/
theorem C7_global_aggregate (orig reimpl : Executable) :
    handleStatsGlobal orig reimpl =
      ((orig.generate_stats reimpl).filterMap Prod.snd).sum /
        (orig.functions_count : ℚ)
    ∧ handleBadgeGlobal orig reimpl =
      ((orig.generate_stats reimpl).filterMap Prod.snd).sum /
        (orig.functions_count : ℚ)
    ∧ handleStatsGlobal
        ⟨[("f", ⟨"f", 0, [1]⟩), ("g", ⟨"g", 0, [2]⟩), ("h", ⟨"h", 0, [3]⟩)]⟩
        ⟨[("f", ⟨"f", 0, [1]⟩), ("g", ⟨"g", 0, [2]⟩)]⟩ = 200 / 3 := by
  refine ⟨?_, ?_, ?_⟩
  · rw [handleStatsGlobal, statsGlobalMatch, statsGlobalMatch_foldl]
    ring_nf
  · rw [handleBadgeGlobal, badgeGlobalMatch, badgeGlobalMatch_foldl]
    ring_nf
  · simp [handleStatsGlobal, statsGlobalMatch, Executable.generate_stats,
      Executable.get_function_stat, Executable.get_function,
      Executable.functions_count, Function.compute_raw_diff, matchingCount,
      List.find?]
    norm_num

/-! ### C10, C3: add_function and conflict handling -/

/-- C10: a failing `add_function` is atomic: on `FunctionNameConflict` the
table is exactly as before, the stored `Function` and the count included. -/
theorem C10_add_function_atomic (e : Executable) (name : String) (address : Nat)
    (data : List Byte) (err : ExecutableError)
    (h : (e.add_function name address data).1 = Except.error err) :
    err = ExecutableError.functionNameConflict name
    ∧ (e.add_function name address data).2 = e
    ∧ ((e.add_function name address data).2).functions_count = e.functions_count
    ∧ (∀ n, ((e.add_function name address data).2).get_function n =
        e.get_function n) := by
  by_cases hc : e.functions.any (fun kv => kv.1 == name)
  · rw [Executable.add_function, if_pos hc] at h ⊢
    exact ⟨(Except.error.injEq _ _).mp h.symm |>.symm ▸ rfl, rfl, rfl, fun _ => rfl⟩
  · rw [Executable.add_function, if_neg hc] at h
    exact absurd h (by simp)

theorem C10_add_function_atomic_witness :
    (Executable.add_function ⟨[("f", ⟨"f", 0, [9]⟩)]⟩ "f" 4 [5]).2 =
      ⟨[("f", ⟨"f", 0, [9]⟩)]⟩ :=
  (C10_add_function_atomic ⟨[("f", ⟨"f", 0, [9]⟩)]⟩ "f" 4 [5]
    (ExecutableError.functionNameConflict "f") (by rfl)).2.1

/-- C3: `add_function` inserts on a fresh name and fails with
`FunctionNameConflict` on a duplicate; the primary pass propagates the
conflict as a hard construction error, while the PDB and mapping passes
swallow it, keep the earlier `Function`, and continue. -/
theorem C3_name_conflict_handling (e : Executable) (name : String) (address : Nat)
    (data : List Byte) :
    (e.containsFunction name = false →
      e.add_function name address data =
        (Except.ok (), ⟨e.functions ++ [(name, ⟨name, address, data⟩)]⟩))
    ∧ (e.containsFunction name = true →
      e.add_function name address data =
        (Except.error (ExecutableError.functionNameConflict name), e))
    ∧ (∀ (base : Nat) (td : List Byte) (sym : ObjSymbol) (rest : List ObjSymbol)
        (d : List Byte), extractSlice base td sym.address sym.size = Except.ok d →
        sym.size ≠ 0 → e.containsFunction sym.name = true →
        e.primaryPass base td (sym :: rest) =
          Except.error (ExecutableError.functionNameConflict sym.name))
    ∧ (∀ (base : Nat) (td : List Byte) (offset len : Nat), len ≠ 0 →
        offset + len ≤ td.length → e.containsFunction name = true →
        e.add_function_from_pdb base td name offset len = Except.ok e)
    ∧ (∀ (base : Nat) (td : List Byte) (fd : FunctionDef) (rest : List FunctionDef)
        (d : List Byte), fd.name = some name →
        extractSlice base td fd.address fd.size = Except.ok d →
        e.containsFunction name = true →
        e.mappingPass base td (fd :: rest) = e.mappingPass base td rest) := by
  refine ⟨?_, ?_, ?_, ?_, ?_⟩
  · intro hc
    rw [Executable.containsFunction] at hc
    rw [Executable.add_function, if_neg (by simp [hc])]
  · intro hc
    rw [Executable.containsFunction] at hc
    rw [Executable.add_function, if_pos hc]
  · intro base td sym rest d hslice hsz hc
    rw [Executable.containsFunction] at hc
    rw [Executable.primaryPass, hslice]
    simp only [if_neg hsz]
    rw [Executable.add_function, if_pos hc]
  · intro base td offset len hlen hbound hc
    rw [Executable.containsFunction] at hc
    rw [Executable.add_function_from_pdb, if_neg hlen, if_pos hbound]
    rw [Executable.add_function, if_pos hc]
  · intro base td fd rest d hname hslice hc
    rw [Executable.containsFunction] at hc
    rw [Executable.mappingPass, hname]
    simp only [hslice]
    rw [Executable.add_function, if_pos hc]

theorem C3_name_conflict_handling_witness :
    (Executable.add_function ⟨[("f", ⟨"f", 0, [9]⟩)]⟩ "g" 4 [5] =
      (Except.ok (), ⟨[("f", ⟨"f", 0, [9]⟩), ("g", ⟨"g", 4, [5]⟩)]⟩))
    ∧ (Executable.add_function ⟨[("f", ⟨"f", 0, [9]⟩)]⟩ "f" 4 [5] =
      (Except.error (ExecutableError.functionNameConflict "f"),
        ⟨[("f", ⟨"f", 0, [9]⟩)]⟩))
    ∧ (Executable.add_function_from_pdb ⟨[("f", ⟨"f", 0, [9]⟩)]⟩ 0 [1, 2] "f" 0 1 =
      Except.ok ⟨[("f", ⟨"f", 0, [9]⟩)]⟩) :=
  ⟨(C3_name_conflict_handling ⟨[("f", ⟨"f", 0, [9]⟩)]⟩ "g" 4 [5]).1 (by decide),
    (C3_name_conflict_handling ⟨[("f", ⟨"f", 0, [9]⟩)]⟩ "f" 4 [5]).2.1 (by decide),
    (C3_name_conflict_handling ⟨[("f", ⟨"f", 0, [9]⟩)]⟩ "f" 4 [5]).2.2.2.1 0 [1, 2]
      0 1 (by decide) (by decide) (by decide)⟩

/-! ### Helper lemmas about extraction and the non-empty-data invariant -/

lemma extractSlice_length (base : Nat) (td : List Byte) (address size : Nat)
    (d : List Byte) (h : extractSlice base td address size = Except.ok d) :
    d.length = size := by
  rw [extractSlice] at h
  by_cases h1 : address < base
  · rw [if_pos h1] at h; cases h
  · rw [if_neg h1] at h
    by_cases h2 : address - base + size ≤ td.length
    · rw [if_pos h2] at h
      cases h
      simp only [List.length_take, List.length_drop]
      omega
    · rw [if_neg h2] at h; cases h

lemma extractSlice_error_of_oob (base : Nat) (td : List Byte) (address size : Nat)
    (h : address < base ∨ address - base + size > td.length) :
    extractSlice base td address size = Except.error ExecutableError.outOfBoundsSlice := by
  rw [extractSlice]
  rcases h with h | h
  · rw [if_pos h]
  · by_cases h1 : address < base
    · rw [if_pos h1]
    · rw [if_neg h1, if_neg (by omega)]

lemma allNonEmpty_append (e : Executable) (name : String) (f : Function)
    (he : e.allNonEmpty = true) (hd : f.data ≠ []) :
    (Executable.mk (e.functions ++ [(name, f)])).allNonEmpty = true := by
  rw [Executable.allNonEmpty] at he ⊢
  rw [List.all_append, he]
  cases hdata : f.data with
  | nil => exact absurd hdata hd
  | cons x xs => simp [hdata]

lemma add_function_allNonEmpty (e : Executable) (name : String) (address : Nat)
    (data : List Byte) (he : e.allNonEmpty = true) (hd : data ≠ []) :
    ((e.add_function name address data).2).allNonEmpty = true := by
  rw [Executable.add_function]
  by_cases hc : e.functions.any (fun kv => kv.1 == name)
  · rw [if_pos hc]; exact he
  · rw [if_neg hc]
    exact allNonEmpty_append e name ⟨name, address, data⟩ he hd

lemma primaryPass_allNonEmpty (base : Nat) (td : List Byte) :
    ∀ (syms : List ObjSymbol) (e e2 : Executable), e.allNonEmpty = true →
      e.primaryPass base td syms = Except.ok e2 → e2.allNonEmpty = true := by
  intro syms
  induction syms with
  | nil =>
    intro e e2 he hp
    rw [Executable.primaryPass] at hp
    exact (Except.ok.inj hp) ▸ he
  | cons s rest ih =>
    intro e e2 he hp
    rw [Executable.primaryPass] at hp
    cases hs : extractSlice base td s.address s.size with
    | error err => simp only [hs] at hp; cases hp
    | ok data =>
      simp only [hs] at hp
      by_cases hsz : s.size = 0
      · rw [if_pos hsz] at hp
        exact ih e e2 he hp
      · rw [if_neg hsz] at hp
        have hd : data ≠ [] := by
          intro hnil
          have := extractSlice_length base td s.address s.size data hs
          rw [hnil] at this
          exact hsz this.symm
        by_cases hc : e.functions.any (fun kv => kv.1 == s.name)
        · simp only [Executable.add_function, if_pos hc] at hp
          cases hp
        · simp only [Executable.add_function, if_neg hc] at hp
          refine ih _ e2 ?_ hp
          exact allNonEmpty_append e s.name ⟨s.name, s.address, data⟩ he hd

lemma add_function_from_pdb_allNonEmpty (e e2 : Executable) (tsa : Nat)
    (td : List Byte) (name : String) (offset len : Nat)
    (he : e.allNonEmpty = true)
    (hp : e.add_function_from_pdb tsa td name offset len = Except.ok e2) :
    e2.allNonEmpty = true := by
  rw [Executable.add_function_from_pdb] at hp
  by_cases hlen : len = 0
  · rw [if_pos hlen] at hp
    exact (Except.ok.inj hp) ▸ he
  · rw [if_neg hlen] at hp
    by_cases hb : offset + len ≤ td.length
    · rw [if_pos hb] at hp
      by_cases hc : e.functions.any (fun kv => kv.1 == name)
      · rw [Executable.add_function, if_pos hc] at hp
        exact (Except.ok.inj hp) ▸ he
      · rw [Executable.add_function, if_neg hc] at hp
        have hd : (td.drop offset).take len ≠ [] := by
          apply List.length_pos.mp
          simp only [List.length_take, List.length_drop]
          omega
        exact (Except.ok.inj hp) ▸
          allNonEmpty_append e name ⟨name, tsa + offset, (td.drop offset).take len⟩
            he hd
    · rw [if_neg hb] at hp; cases hp

lemma pdbProceduresPass_allNonEmpty (base : Nat) (td : List Byte) :
    ∀ (ps : List ProcedureSym) (e e2 : Executable), e.allNonEmpty = true →
      e.pdbProceduresPass base td ps = Except.ok e2 → e2.allNonEmpty = true := by
  intro ps
  induction ps with
  | nil =>
    intro e e2 he hp
    rw [Executable.pdbProceduresPass] at hp
    exact (Except.ok.inj hp) ▸ he
  | cons p rest ih =>
    intro e e2 he hp
    rw [Executable.pdbProceduresPass] at hp
    cases ha : e.add_function_from_pdb base td p.name p.offset p.len with
    | error err => rw [ha] at hp; cases hp
    | ok e3 =>
      rw [ha] at hp
      exact ih e3 e2
        (add_function_from_pdb_allNonEmpty e e3 base td p.name p.offset p.len he ha)
        hp

lemma pdbModulesPass_allNonEmpty (base : Nat) (td : List Byte) :
    ∀ (ms : List (List ProcedureSym)) (e e2 : Executable), e.allNonEmpty = true →
      e.pdbModulesPass base td ms = Except.ok e2 → e2.allNonEmpty = true := by
  intro ms
  induction ms with
  | nil =>
    intro e e2 he hp
    rw [Executable.pdbModulesPass] at hp
    exact (Except.ok.inj hp) ▸ he
  | cons mdl rest ih =>
    intro e e2 he hp
    rw [Executable.pdbModulesPass] at hp
    cases ha : e.pdbProceduresPass base td mdl with
    | error err => rw [ha] at hp; cases hp
    | ok e3 =>
      rw [ha] at hp
      exact ih e3 e2 (pdbProceduresPass_allNonEmpty base td mdl e e3 he ha) hp

lemma pdbPublicsPass_allNonEmpty (base : Nat) (td : List Byte) (mapping : Mapping) :
    ∀ (ps : List PublicSym) (e e2 : Executable), e.allNonEmpty = true →
      e.pdbPublicsPass base td mapping ps = Except.ok e2 → e2.allNonEmpty = true := by
  intro ps
  induction ps with
  | nil =>
    intro e e2 he hp
    rw [Executable.pdbPublicsPass] at hp
    exact (Except.ok.inj hp) ▸ he
  | cons p rest ih =>
    intro e e2 he hp
    rw [Executable.pdbPublicsPass] at hp
    by_cases hf : p.function
    · rw [if_pos hf] at hp
      cases ha : e.add_function_from_pdb base td p.name p.offset
          (((mapping.get_function_def p.name).map FunctionDef.size).getD 0) with
      | error err => rw [ha] at hp; cases hp
      | ok e3 =>
        rw [ha] at hp
        exact ih e3 e2
          (add_function_from_pdb_allNonEmpty e e3 base td p.name p.offset _ he ha) hp
    · rw [if_neg hf] at hp
      exact ih e e2 he hp

/-! ### C2: the non-empty-data invariant -/

/-- C2 fails on the code: `from_object_with_mapping` has no `size == 0`
guard, so a named mapping entry of size 0 materializes a `Function` with
empty `data` inside the table. -/
theorem C2_counterexample :
    Executable.from_object_with_mapping ⟨some (0, [144]), []⟩
        ⟨some [⟨some "f", 0, 0⟩]⟩ =
      Except.ok ⟨[("f", ⟨"f", 0, []⟩)]⟩
    ∧ (Executable.mk [("f", ⟨"f", 0, []⟩)]).allNonEmpty = false :=
  ⟨rfl, rfl⟩

/-- C2 amended: every `Function` stored by `from_object` or by
`from_object_with_pdb` has non-empty `data` (zero-size primary symbols and
zero-length PDB extractions are never inserted, so they never contribute to
`functions_count()`); the guarantee does not extend to
`from_object_with_mapping`, which inserts a named size-0 mapping entry as a
`Function` with empty `data`. -/
theorem C2_amended_nonempty_data :
    (∀ (obj : ObjectFile) (e : Executable),
      Executable.from_object obj = Except.ok e → e.allNonEmpty = true)
    ∧ (∀ (obj : ObjectFile) (m : Mapping) (p : PdbFile) (e : Executable),
        Executable.from_object_with_pdb obj m p = Except.ok e →
        e.allNonEmpty = true) := by
  have hobj : ∀ (obj : ObjectFile) (e : Executable),
      Executable.from_object obj = Except.ok e → e.allNonEmpty = true := by
    intro obj e hp
    rw [Executable.from_object] at hp
    cases hsec : obj.text_section with
    | none =>
      simp only [hsec] at hp
      exact (Except.ok.inj hp) ▸ rfl
    | some sec =>
      obtain ⟨base, td⟩ := sec
      simp only [hsec] at hp
      exact primaryPass_allNonEmpty base td _ {} e rfl hp
  refine ⟨hobj, ?_⟩
  intro obj m p e hp
  rw [Executable.from_object_with_pdb] at hp
  cases ho : Executable.from_object obj with
  | error err => simp only [ho] at hp; cases hp
  | ok res =>
    simp only [ho] at hp
    have hres : res.allNonEmpty = true := hobj obj res ho
    cases hsec : obj.text_section with
    | none =>
      simp only [hsec] at hp
      exact (Except.ok.inj hp) ▸ hres
    | some sec =>
      obtain ⟨base, td⟩ := sec
      simp only [hsec] at hp
      cases hmod : res.pdbModulesPass base td p.modules with
      | error err => simp only [hmod] at hp; cases hp
      | ok res2 =>
        simp only [hmod] at hp
        exact pdbPublicsPass_allNonEmpty base td m p.publics res2 e
          (pdbModulesPass_allNonEmpty base td p.modules res res2 hres hmod) hp

theorem C2_amended_nonempty_data_witness :
    (Executable.mk [("f", ⟨"f", 0, [1, 2]⟩)]).allNonEmpty = true :=
  C2_amended_nonempty_data.1 ⟨some (0, [1, 2]), [⟨true, "f", 0, 2⟩]⟩
    ⟨[("f", ⟨"f", 0, [1, 2]⟩)]⟩ rfl

/-! ### C4: out-of-bounds extraction is fatal -/

lemma primaryPass_oob (base : Nat) (td : List Byte) :
    ∀ (syms : List ObjSymbol) (e : Executable) (sym : ObjSymbol), sym ∈ syms →
      (sym.address < base ∨ sym.address - base + sym.size > td.length) →
      ∃ err, e.primaryPass base td syms = Except.error err := by
  intro syms
  induction syms with
  | nil => intro e sym hm; cases hm
  | cons s rest ih =>
    intro e sym hm hoob
    rcases List.mem_cons.mp hm with heq | hmem
    · subst heq
      refine ⟨ExecutableError.outOfBoundsSlice, ?_⟩
      rw [Executable.primaryPass,
        extractSlice_error_of_oob base td sym.address sym.size hoob]
    · rw [Executable.primaryPass]
      cases hs : extractSlice base td s.address s.size with
      | error err => exact ⟨err, rfl⟩
      | ok data =>
        by_cases hsz : s.size = 0
        · simp only [if_pos hsz]
          exact ih e sym hmem hoob
        · simp only [if_neg hsz]
          by_cases hc : e.functions.any (fun kv => kv.1 == s.name)
          · simp only [Executable.add_function, if_pos hc]
            exact ⟨ExecutableError.functionNameConflict s.name, rfl⟩
          · simp only [Executable.add_function, if_neg hc]
            exact ih _ sym hmem hoob

lemma mappingPass_oob (base : Nat) (td : List Byte) :
    ∀ (fds : List FunctionDef) (e : Executable) (fd : FunctionDef) (name : String),
      fd ∈ fds → fd.name = some name →
      (fd.address < base ∨ fd.address - base + fd.size > td.length) →
      ∃ err, e.mappingPass base td fds = Except.error err := by
  intro fds
  induction fds with
  | nil => intro e fd name hm; cases hm
  | cons f rest ih =>
    intro e fd name hm hname hoob
    rcases List.mem_cons.mp hm with heq | hmem
    · subst heq
      refine ⟨ExecutableError.outOfBoundsSlice, ?_⟩
      rw [Executable.mappingPass]
      simp only [hname,
        extractSlice_error_of_oob base td fd.address fd.size hoob]
    · rw [Executable.mappingPass]
      cases hn : f.name with
      | none => exact ih e fd name hmem hname hoob
      | some nm =>
        cases hs : extractSlice base td f.address f.size with
        | error err => exact ⟨err, rfl⟩
        | ok data =>
          by_cases hc : e.functions.any (fun kv => kv.1 == nm)
          · simp only [Executable.add_function, if_pos hc]
            exact ih e fd name hmem hname hoob
          · simp only [Executable.add_function, if_neg hc]
            exact ih _ fd name hmem hname hoob

/-- C4: an extraction whose address precedes the code section base, or whose
offset plus size leaves the code section, makes the whole construction fail
(the slice-index panic, modelled as a fatal error): no entry is silently
skipped and no partially-built table is returned. -/
theorem C4_oob_is_fatal (obj : ObjectFile) (base : Nat) (td : List Byte)
    (hsec : obj.text_section = some (base, td)) :
    (∀ sym ∈ obj.symbols, sym.kind_is_text = true → sym.size ≠ 0 →
      (sym.address < base ∨ sym.address - base + sym.size > td.length) →
      ∃ err, Executable.from_object obj = Except.error err)
    ∧ (∀ (m : Mapping) (fds : List FunctionDef) (fd : FunctionDef) (name : String),
        m.function = some fds → fd ∈ fds → fd.name = some name →
        (fd.address < base ∨ fd.address - base + fd.size > td.length) →
        ∃ err, Executable.from_object_with_mapping obj m = Except.error err) := by
  constructor
  · intro sym hmem hkind hsz hoob
    rw [Executable.from_object, hsec]
    refine primaryPass_oob base td _ {} sym ?_ hoob
    rw [List.mem_filter]
    exact ⟨hmem, by simp [hkind, hsz]⟩
  · intro m fds fd name hfun hmem hname hoob
    rw [Executable.from_object_with_mapping]
    cases ho : Executable.from_object obj with
    | error err => exact ⟨err, rfl⟩
    | ok res =>
      rw [hsec, hfun]
      exact mappingPass_oob base td fds res fd name hmem hname hoob

theorem C4_oob_is_fatal_witness :
    ∃ err, Executable.from_object ⟨some (100, [0, 1]), [⟨true, "g", 50, 1⟩]⟩ =
      Except.error err :=
  (C4_oob_is_fatal ⟨some (100, [0, 1]), [⟨true, "g", 50, 1⟩]⟩ 100 [0, 1] rfl).1
    ⟨true, "g", 50, 1⟩ (by simp) rfl (by decide) (Or.inl (by decide))

/-! ### C8: call-target name resolution in the disassembly output -/

/-- C8: with name resolution on, an instruction grouped as both `call` and
`branch_relative` with exactly one immediate operand whose computed absolute
target address (`self.address` plus the immediate under mode-dependent
signed arithmetic when `force_address_zero` is on, else the immediate
directly) resolves to a `Function` of the owning `Executable` is emitted as
the mnemonic, one space, and that `Function`'s name; every other instruction
(unresolved calls included) is emitted as the mnemonic, one space, and the
raw operand string — each with a trailing newline. -/
theorem C8_call_name_resolution (self : Function) (e : Executable) (faz : Bool)
    (i : Insn) (m : String) (hm : i.mnemonic = some m) :
    (∀ (v : Int) (f : Function), i.groups.contains "call" = true →
      i.groups.contains "branch_relative" = true →
      i.operands = [Operand.imm v] →
      e.get_function_by_address
          (callTargetAddress self.address faz (!i.groups.contains "not64bitmode") v)
        = some f →
      self.format_instruction e faz true i = m ++ " " ++ f.name ++ "\n")
    ∧ (¬ (i.groups.contains "call" = true ∧ i.groups.contains "branch_relative" = true
          ∧ ∃ v, i.operands = [Operand.imm v] ∧
            (e.get_function_by_address
              (callTargetAddress self.address faz
                (!i.groups.contains "not64bitmode") v)).isSome = true) →
      self.format_instruction e faz true i = m ++ " " ++ i.op_str.getD "" ++ "\n") := by
  constructor
  · intro v f hcall hbr hops hfound
    rw [Function.format_instruction, hcall, hbr]
    simp only [hops, hfound, hm]
    rfl
  · intro hnot
    by_cases hcall : i.groups.contains "call" = true
    · by_cases hbr : i.groups.contains "branch_relative" = true
      · cases hops : i.operands with
        | nil =>
          rw [Function.format_instruction, hcall, hbr]
          simp only [hops, hm]
          rfl
        | cons op rest =>
          cases op with
          | imm v =>
            cases rest with
            | nil =>
              have hlk : e.get_function_by_address
                  (callTargetAddress self.address faz
                    (!i.groups.contains "not64bitmode") v) = none := by
                cases hlk2 : e.get_function_by_address
                    (callTargetAddress self.address faz
                      (!i.groups.contains "not64bitmode") v) with
                | none => rfl
                | some f =>
                  exact absurd ⟨hcall, hbr, v, hops, by rw [hlk2]; rfl⟩ hnot
              rw [Function.format_instruction, hcall, hbr]
              simp only [hops, hlk, hm]
              rfl
            | cons o2 ops =>
              rw [Function.format_instruction, hcall, hbr]
              simp only [hops, hm]
              rfl
          | nonImm =>
            rw [Function.format_instruction, hcall, hbr]
            simp only [hops, hm]
            rfl
      · have hbr2 : i.groups.contains "branch_relative" = false :=
          Bool.eq_false_iff.mpr (fun hh => hbr hh)
        rw [Function.format_instruction, hbr2, Bool.and_false, hm]
        rfl
    · have hcall2 : i.groups.contains "call" = false :=
        Bool.eq_false_iff.mpr (fun hh => hcall hh)
      rw [Function.format_instruction, hcall2, Bool.true_and, Bool.false_and, hm]
      rfl

theorem C8_call_name_resolution_witness :
    Function.format_instruction ⟨"f", 0, [0]⟩ ⟨[("g", ⟨"g", 16, [1]⟩)]⟩ false true
        ⟨some "call", some "0x10", ["call", "branch_relative"], [Operand.imm 16]⟩ =
      "call" ++ " " ++ "g" ++ "\n"
    ∧ Function.format_instruction ⟨"f", 0, [0]⟩ ⟨[("g", ⟨"g", 16, [1]⟩)]⟩ false true
        ⟨some "mov", some "eax, 1", [], []⟩ = "mov" ++ " " ++ "eax, 1" ++ "\n" :=
  ⟨(C8_call_name_resolution ⟨"f", 0, [0]⟩ ⟨[("g", ⟨"g", 16, [1]⟩)]⟩ false
      ⟨some "call", some "0x10", ["call", "branch_relative"], [Operand.imm 16]⟩
      "call" rfl).1 16 ⟨"g", 16, [1]⟩ (by decide) (by decide) rfl (by decide),
    (C8_call_name_resolution ⟨"f", 0, [0]⟩ ⟨[("g", ⟨"g", 16, [1]⟩)]⟩ false
      ⟨some "mov", some "eax, 1", [], []⟩ "mov" rfl).2
      (fun h => absurd h.1 (by decide))⟩

end Satsuki
